import Mathlib

/-!
Shallow embedding of `mvc/converter.py` (Miro Video Converter).

Python strings are modelled as `List Char` (the file only manipulates ASCII
text).  Python floats are modelled as exact rationals `ℚ`; every numeric fact
proved below involves values (such as 90.5) on which binary floating point and
exact arithmetic agree.  `None` for the string-valued class attributes
`media_type` / `extension` is modelled as the empty list, which is observably
equivalent: the code only tests their truthiness (`None` and `""` are both
falsy) and compares them with nonempty literals.
-/

/-- Python truthiness of a string: nonempty. -/
def pyTruthy (s : List Char) : Bool := !s.isEmpty

/-- Character class of the regex `\w` for Python 2 `str` patterns (ASCII):
`[a-zA-Z0-9_]`. -/
def isWordChar (c : Char) : Bool := c.isAlphanum || c = '_'

/-- `NON_WORD_CHARS.sub("", name).lower()` from `ConverterInfo.__init__`
(converter.py line 24): `NON_WORD_CHARS = re.compile(r"[^a-zA-Z0-9]+")`, so
every character outside `[a-zA-Z0-9]` is removed, then the result is
ASCII-lowercased. -/
def normalizeName (n : List Char) : List Char :=
  (n.filter (fun c => c.isAlphanum)).map Char.toLower

/-- The fields of `ConverterInfo` used by the embedded operations
(converter.py lines 17-24). -/
structure ConverterInfo where
  name : List Char
  identifier : List Char
  media_type : List Char
  extension : List Char
deriving DecidableEq

/-- `ConverterInfo.__init__` (converter.py lines 22-24): stores the name and
the derived identifier; `media_type` and `extension` are class attributes
(default `None`, modelled as `[]`). -/
def ConverterInfo.make (name media_type extension : List Char) : ConverterInfo :=
  { name := name
    identifier := normalizeName name
    media_type := media_type
    extension := extension }

/-- `os.path.basename` (posixpath): the part after the last `/`. -/
def basename (p : List Char) : List Char :=
  (p.reverse.takeWhile (fun c => c ≠ '/')).reverse

/-- `str.rfind(c)`: index of the last occurrence of `c`, `-1` when absent. -/
def rfindIdx (c : Char) (p : List Char) : Int :=
  match p.reverse.findIdx? (fun x => x = c) with
  | some i => (p.length : Int) - 1 - (i : Int)
  | none => -1

/-- `os.path.splitext` (posixpath / genericpath._splitext with `sep='/'`,
`extsep='.'`): the extension starts at the last dot, provided that dot lies
after the last separator and some character strictly between them is not a
dot (so names consisting only of leading dots, like `.bashrc`, have no
extension). -/
def splitext (p : List Char) : List Char × List Char :=
  let sepIndex := rfindIdx '/' p
  let dotIndex := rfindIdx '.' p
  if dotIndex > sepIndex ∧
      (∃ j : Fin p.length, sepIndex < (j.val : Int) ∧ (j.val : Int) < dotIndex ∧
        p.get j ≠ '.') then
    (p.take dotIndex.toNat, p.drop dotIndex.toNat)
  else (p, [])

/-- `if ext and ext[0] == '.': ext = ext[1:]` (converter.py lines 35-36). -/
def stripLeadingDot : List Char → List Char
  | [] => []
  | c :: rest => if c = '.' then rest else c :: rest

/-- The only field of the source-media descriptor used by
`get_output_filename`. -/
structure Video where
  filename : List Char

/-- `ConverterInfo.get_output_filename` (converter.py lines 32-38):
the percent-format of `name`, `self.identifier` and `extension` joined by
dots, where `(name, ext)` come
from `splitext(basename(video.filename))` and `extension` is
`self.extension` when truthy, else the source extension with its leading dot
stripped. -/
def ConverterInfo.get_output_filename (c : ConverterInfo) (video : Video) :
    List Char :=
  let bn := basename video.filename
  let ne := splitext bn
  let ext := stripLeadingDot ne.2
  let extension := if pyTruthy c.extension then c.extension else ext
  ne.1 ++ ('.' :: c.identifier) ++ ('.' :: extension)

/-! ## finalize (converter.py lines 46-76)

`finalize` interacts with three external operations: the qtfaststart remux
(`processor.process`), `shutil.move` and `os.remove`.  Each is modelled by
the outcome it would have on this call: it either returns, or raises a Python
exception.  Exceptions are classified by what the `except` clauses of
`finalize` can catch: `EnvironmentError` (with its message), the remux
collaborator failure `FastStartException`, or anything else. -/

/-- A Python exception as classified by the handlers of `finalize`. -/
inductive PyErr
  | envError (msg : List Char)
  | fastStartExc
  | otherExc (msg : List Char)
deriving DecidableEq

/-- Outcome of calling one of the external operations. -/
inductive OpOutcome
  | ok
  | raises (e : PyErr)
deriving DecidableEq

/-- Outcomes of the three external operations for one `finalize` call:
`processor.process(temp_output, output)`, `shutil.move(temp_output, output)`,
`os.remove(temp_output)`. -/
structure FinalizeEnv where
  remuxOutcome : OpOutcome
  moveOutcome : OpOutcome
  removeOutcome : OpOutcome
deriving DecidableEq

/-- What a `finalize` call did: `raised = some e` means the call raised `e`,
`none` means it returned normally; `removeAttempted` records whether
`os.remove(temp_output)` was called. -/
structure FinalizeResult where
  raised : Option PyErr
  removeAttempted : Bool
deriving DecidableEq

/-- Message of the `EnvironmentError` with text `qtfaststart exception`
built on line 57 of converter.py. -/
def qtfaststartMsg : List Char := "qtfaststart exception".toList

/-- The trailing `if needs_remove:` block of `finalize` (converter.py lines
67-76): attempt `os.remove(temp_output)`; on an `EnvironmentError` from the
removal, re-raise the pending error if there is one, otherwise swallow;
any other exception from the removal propagates. -/
def finalizeCleanup (env : FinalizeEnv) (needsRemove : Bool)
    (err : Option PyErr) : FinalizeResult :=
  if needsRemove then
    match env.removeOutcome with
    | .ok => { raised := none, removeAttempted := true }
    | .raises (.envError _) =>
      match err with
      | some e => { raised := some e, removeAttempted := true }
      | none => { raised := none, removeAttempted := true }
    | .raises e => { raised := some e, removeAttempted := true }
  else { raised := none, removeAttempted := false }

/-- `ConverterInfo.finalize` (converter.py lines 46-76).  In the remux branch
(`media_type` equal to `format` and `extension` equal to `mp4`)
`needs_remove` is set `True` before the `try`, and only `FastStartException`
is caught (converted into a pending `EnvironmentError`); in the move
branch only `EnvironmentError` is caught, and it both marks removal and
becomes the pending error.  An uncaught exception propagates at once,
skipping the cleanup block. -/
def ConverterInfo.finalize (c : ConverterInfo) (env : FinalizeEnv) :
    FinalizeResult :=
  if c.media_type = "format".toList ∧ c.extension = "mp4".toList then
    match env.remuxOutcome with
    | .ok => finalizeCleanup env true none
    | .raises .fastStartExc =>
      finalizeCleanup env true (some (.envError qtfaststartMsg))
    | .raises e => { raised := some e, removeAttempted := false }
  else
    match env.moveOutcome with
    | .ok => finalizeCleanup env false none
    | .raises (.envError m) => finalizeCleanup env true (some (.envError m))
    | .raises e => { raised := some e, removeAttempted := false }

/-- Mirror of the `needs_remove` flag at the start of the cleanup block: set
unconditionally in the remux branch, and by a caught `EnvironmentError` in
the move branch. -/
def needsRemoveMarked (c : ConverterInfo) (env : FinalizeEnv) : Bool :=
  if c.media_type = "format".toList ∧ c.extension = "mp4".toList then true
  else
    match env.moveOutcome with
    | .raises (.envError _) => true
    | _ => false

/-- Mirror of the `err` variable at the start of the cleanup block: the
pending commit error, if any. -/
def pendingError (c : ConverterInfo) (env : FinalizeEnv) : Option PyErr :=
  if c.media_type = "format".toList ∧ c.extension = "mp4".toList then
    match env.remuxOutcome with
    | .raises .fastStartExc => some (.envError qtfaststartMsg)
    | _ => none
  else
    match env.moveOutcome with
    | .raises (.envError m) => some (.envError m)
    | _ => none

/-! ## The status-line parser (converter.py lines 81-135)

The three regexes of `FFmpegConverterInfoBase` are embedded as bespoke
matchers over `List Char`.  All three are applied with `re.match` (anchored at
the start, not at the end), `.` does not cross a newline, and the patterns are
sequences of literal pieces separated by `.*` gaps.  For such patterns a match
exists if and only if scanning for the literal pieces left to right, taking
the first occurrence of each and never crossing a newline, succeeds; the
captured `time=` group is taken at the first occurrence of the following
literal, which on the separator-once diagnostic lines ffmpeg emits coincides
with the greedy capture. -/

/-- One structured event returned by `process_status_line` (the Python dicts
with keys finished / error / duration / progress). -/
inductive Event
  | finishedError (error : List Char)
  | duration (seconds : ℚ)
  | progress (seconds : ℚ)
  | finished
deriving DecidableEq

/-- `FFmpegConverterInfoBase._check_for_errors` (converter.py lines 103-109):
a line starting with `Unknown`, or starting with `Error` but not with
`Error while decoding stream`, is returned as the error; otherwise the
function falls through (returns `None`). -/
def checkForErrors (l : List Char) : Option (List Char) :=
  if "Unknown".toList.isPrefixOf l then some l
  else if "Error".toList.isPrefixOf l then
    if "Error while decoding stream".toList.isPrefixOf l then none else some l
  else none

/-- Scan for the literal `pat`: skip characters (none of which may be a
newline, mirroring `.*`) until `pat` occurs, and return the remainder after
its first occurrence. -/
def scanFor (pat : List Char) : List Char → Option (List Char)
  | [] => if pat.isPrefixOf ([] : List Char) then some [] else none
  | c :: rest =>
    if pat.isPrefixOf (c :: rest) then some ((c :: rest).drop pat.length)
    else if c = '\n' then none
    else scanFor pat rest

/-- Like `scanFor`, but also return the characters skipped before the first
occurrence of `pat` (the captured `.*` group in `time=(.*) bitrate=`). -/
def splitFirst (pat : List Char) : List Char → Option (List Char × List Char)
  | [] => if pat.isPrefixOf ([] : List Char) then some ([], []) else none
  | c :: rest =>
    if pat.isPrefixOf (c :: rest) then some ([], (c :: rest).drop pat.length)
    else if c = '\n' then none
    else
      match splitFirst pat rest with
      | some (pre, post) => some (c :: pre, post)
      | none => none

/-- Literal pieces of `DURATION_RE`, `PROGRESS_RE` and `LAST_PROGRESS_RE`. -/
def durationPat : List Char := "Duration: ".toList

def pFrame : List Char := "frame=".toList

def pFps : List Char := " fps=".toList

def pQ : List Char := " q=".toList

def pSize : List Char := " size=".toList

def pSizeBare : List Char := "size=".toList

def pLsize : List Char := " Lsize=".toList

def pTime : List Char := " time=".toList

def pBitrate : List Char := " bitrate=".toList

/-- Numeric value of an ASCII digit. -/
def digitVal (c : Char) : Nat := c.toNat - 48

/-- Value of a two-digit group such as `(\d\d)`. -/
def twoDigits (a b : Char) : Nat := 10 * digitVal a + digitVal b

/-- Read exactly two ASCII digits (`(\d\d)`) and return their value and the
remainder. -/
def readDigit2 : List Char → Option (Nat × List Char)
  | a :: b :: rest =>
    if a.isDigit ∧ b.isDigit then some (twoDigits a b, rest) else none
  | _ => none

/-- Require the next character to be `c`. -/
def expectChar (c : Char) : List Char → Option (List Char)
  | x :: rest => if x = c then some rest else none
  | [] => none

/-- `DURATION_RE.match(line)` with its four `(\d\d)` groups (converter.py
lines 82-83): `\W*Duration: (\d\d):(\d\d):(\d\d)\.(\d\d)` followed by the
optional (hence unconstraining) start/bitrate groups and no end anchor.  The
greedy `\W*` necessarily consumes the maximal non-word prefix, because the
next pattern character `D` is a word character; this is `dropWhile`. -/
def matchDuration (l : List Char) : Option (Nat × Nat × Nat × Nat) :=
  let l1 := l.dropWhile (fun c => !(isWordChar c))
  if durationPat.isPrefixOf l1 then
    match readDigit2 (l1.drop durationPat.length) with
    | none => none
    | some (hh, r1) =>
      match expectChar ':' r1 with
      | none => none
      | some r2 =>
        match readDigit2 r2 with
        | none => none
        | some (mm, r3) =>
          match expectChar ':' r3 with
          | none => none
          | some r4 =>
            match readDigit2 r4 with
            | none => none
            | some (ss, r5) =>
              match expectChar '.' r5 with
              | none => none
              | some r6 =>
                match readDigit2 r6 with
                | none => none
                | some (cc, _) => some (hh, mm, ss, cc)
  else none

/-- `PROGRESS_RE` with its optional `(?:frame=.* fps=.* q=.* )?` group taken
(converter.py lines 84-85); returns the `time=(.*)` capture. -/
def matchProgressFrame (l : List Char) : Option (List Char) :=
  if pFrame.isPrefixOf l then
    match scanFor pFps (l.drop pFrame.length) with
    | none => none
    | some r1 =>
      match scanFor pQ r1 with
      | none => none
      | some r2 =>
        match scanFor pSize r2 with
        | none => none
        | some r3 =>
          match scanFor pTime r3 with
          | none => none
          | some r4 =>
            match splitFirst pBitrate r4 with
            | none => none
            | some (t, _) => some t
  else none

/-- `PROGRESS_RE` with the optional group skipped: `size=` must then sit at
the very start of the line (`re.match` anchors at position 0). -/
def matchProgressBare (l : List Char) : Option (List Char) :=
  if pSizeBare.isPrefixOf l then
    match scanFor pTime (l.drop pSizeBare.length) with
    | none => none
    | some r1 =>
      match splitFirst pBitrate r1 with
      | none => none
      | some (t, _) => some t
  else none

/-- `PROGRESS_RE.match(line)`: the engine prefers taking the optional group;
the two alternatives require the line to start with `frame=` respectively
`size=`, so at most one applies. -/
def matchProgress (l : List Char) : Option (List Char) :=
  match matchProgressFrame l with
  | some t => some t
  | none => matchProgressBare l

/-- `LAST_PROGRESS_RE.match(line)` (converter.py lines 86-87):
`frame=.* fps=.* q=.* Lsize=.* time=(.*) bitrate=(.*)`. -/
def matchLastProgress (l : List Char) : Option (List Char) :=
  if pFrame.isPrefixOf l then
    match scanFor pFps (l.drop pFrame.length) with
    | none => none
    | some r1 =>
      match scanFor pQ r1 with
      | none => none
      | some r2 =>
        match scanFor pLsize r2 with
        | none => none
        | some r3 =>
          match scanFor pTime r3 with
          | none => none
          | some r4 =>
            match splitFirst pBitrate r4 with
            | none => none
            | some (t, _) => some t
  else none

/-- Modelled from the spec: `mvc.utils.hms_to_seconds` is imported from
`mvc/utils.py`, which is not under src/; the spec (section 4.3 and the C6
source sentences) gives `seconds = HH*3600 + MM*60 + SS`, with the caller
folding the centiseconds into the seconds argument. -/
def hms_to_seconds (h m s : ℚ) : ℚ := h * 3600 + m * 60 + s

/-- Python `float()` on the simple decimal literals that can appear in the
captured `time=` field: optional surrounding spaces, optional sign, digits
with an optional fractional part.  Anything else is a `ValueError`
(`none`). -/
def pyFloat (s : List Char) : Option ℚ :=
  let s1 := (s.dropWhile (fun c => c = ' ')).reverse.dropWhile (fun c => c = ' ')
  let s2 := s1.reverse
  let (sgn, s3) : ℚ × List Char :=
    match s2 with
    | '-' :: rest => (-1, rest)
    | '+' :: rest => (1, rest)
    | rest => (1, rest)
  let intPart := s3.takeWhile Char.isDigit
  let rest1 := s3.dropWhile Char.isDigit
  match rest1 with
  | [] =>
    if intPart.isEmpty then none
    else some (sgn * (intPart.foldl (fun a c => 10 * a + digitVal c) 0 : Nat))
  | '.' :: fracRest =>
    let fracPart := fracRest.takeWhile Char.isDigit
    if fracRest.dropWhile Char.isDigit ≠ [] then none
    else if intPart.isEmpty ∧ fracPart.isEmpty then none
    else
      some (sgn *
        ((intPart.foldl (fun a c => 10 * a + digitVal c) 0 : Nat) +
          (fracPart.foldl (fun a c => 10 * a + digitVal c) 0 : Nat) /
            (10 : ℚ) ^ fracPart.length))
  | _ => none

/-- The body of the `PROGRESS_RE` branch (converter.py lines 126-131): if the
captured `t` contains a colon, unpack `t.split(':')[:3]` into three floats
(raising `ValueError` when there are only two pieces or a piece is not a
float) and convert via `hms_to_seconds`; otherwise `float(t)` directly. -/
def progressEvent (t : List Char) : Except (List Char) (Option Event) :=
  if t.contains ':' then
    match (t.splitOn ':').take 3 with
    | [a, b, c] =>
      match pyFloat a, pyFloat b, pyFloat c with
      | some h, some m, some s => .ok (some (.progress (hms_to_seconds h m s)))
      | _, _, _ => .error "ValueError".toList
    | _ => .error "ValueError".toList
  else
    match pyFloat t with
    | some x => .ok (some (.progress x))
    | none => .error "ValueError".toList

/-- The duration / progress / last-progress cascade of
`process_status_line` after the error check (converter.py lines 117-135). -/
def processRest (l : List Char) : Except (List Char) (Option Event) :=
  match matchDuration l with
  | some (hh, mm, ss, cc) =>
    .ok (some (.duration (hms_to_seconds hh mm ((ss : ℚ) + (cc : ℚ) / 100))))
  | none =>
    match matchProgress l with
    | some t => progressEvent t
    | none =>
      match matchLastProgress l with
      | some _ => .ok (some .finished)
      | none => .ok none

/-- `FFmpegConverterInfoBase.process_status_line` (converter.py lines
111-135).  `if error:` is Python truthiness, so a hypothetical empty error
string would fall through to the other patterns. -/
def processStatusLine (l : List Char) : Except (List Char) (Option Event) :=
  match checkForErrors l with
  | some e => if e.isEmpty then processRest l else .ok (some (.finishedError e))
  | none => processRest l

/-! ## ConverterManager (converter.py lines 159-224)

Python dicts are modelled as association lists with at most one entry per
key; `dictInsert` replaces in place or appends, exactly the observable
behaviour of `d[k] = v`.  `brand_rmap` is keyed by converter objects (which
the source never makes equal without being identical) and its values may
themselves be `None`, hence the nested `Option`. -/

/-- `self.converters[converter.identifier] = converter`. -/
def dictInsert (k : List Char) (v : ConverterInfo) :
    List (List Char × ConverterInfo) → List (List Char × ConverterInfo)
  | [] => [(k, v)]
  | (k2, v2) :: rest =>
    if k2 = k then (k, v) :: rest else (k2, v2) :: dictInsert k v rest

/-- Dict lookup for the converters map. -/
def dictLookup (k : List Char) :
    List (List Char × ConverterInfo) → Option ConverterInfo
  | [] => none
  | (k2, v2) :: rest => if k2 = k then some v2 else dictLookup k rest

/-- Number of stored entries under a given identifier. -/
def keyCount (k : List Char) (d : List (List Char × ConverterInfo)) : Nat :=
  d.countP (fun kv => kv.1 == k)

/-- Dict lookup for `brand_rmap` (`KeyError` is `none`; a stored value may
itself be `none`). -/
def rmapLookup (k : ConverterInfo) :
    List (ConverterInfo × Option (List Char)) → Option (Option (List Char))
  | [] => none
  | (k2, v2) :: rest => if k2 = k then some v2 else rmapLookup k rest

/-- Dict lookup for `brand_map` (keys are optional brands: the `None` brand
is a legal key). -/
def bmapLookup (k : Option (List Char)) :
    List (Option (List Char) × List ConverterInfo) → Option (List ConverterInfo)
  | [] => none
  | (k2, v2) :: rest => if k2 = k then some v2 else bmapLookup k rest

/-- The three maps set up by `ConverterManager.__init__` (converter.py lines
159-165). -/
structure ConverterManager where
  converters : List (List Char × ConverterInfo)
  brand_rmap : List (ConverterInfo × Option (List Char))
  brand_map : List (Option (List Char) × List ConverterInfo)
deriving DecidableEq

/-- `ConverterManager.add_converter` (converter.py lines 167-168). -/
def ConverterManager.add_converter (m : ConverterManager) (c : ConverterInfo) :
    ConverterManager :=
  { m with converters := dictInsert c.identifier c m.converters }

/-- `ConverterManager.brand_to_converters` (converter.py lines 174-178):
dict lookup, with `KeyError` turned into `None`. -/
def ConverterManager.brand_to_converters (m : ConverterManager)
    (b : Option (List Char)) : Option (List ConverterInfo) :=
  bmapLookup b m.brand_map

/-- `ConverterManager.converter_to_brand` (converter.py lines 180-184):
`self.brand_rmap[converter]`, with `KeyError` turned into `None`; note the
stored value may itself be `None` (an explicitly unbranded converter), giving
the same observable result. -/
def ConverterManager.converter_to_brand (m : ConverterManager)
    (c : ConverterInfo) : Option (List Char) :=
  match rmapLookup c m.brand_rmap with
  | some b => b
  | none => none

/-! ## Shared concrete objects used by several theorems below -/

instance {ε α : Type} [DecidableEq ε] [DecidableEq α] :
    DecidableEq (Except ε α) := fun x y =>
  match x, y with
  | .ok a, .ok b => if h : a = b then .isTrue (by rw [h]) else .isFalse (by simp [h])
  | .error a, .error b => if h : a = b then .isTrue (by rw [h]) else .isFalse (by simp [h])
  | .ok _, .error _ => .isFalse (by simp)
  | .error _, .ok _ => .isFalse (by simp)

/-- A remux-branch profile: `media_type` is `format` and `extension` is
`mp4`, so `finalize` runs qtfaststart. -/
def mp4FormatConverter : ConverterInfo :=
  ConverterInfo.make "MP4".toList "format".toList "mp4".toList

/-- A plain-move profile (any profile outside the format/mp4 combination). -/
def aviConverter : ConverterInfo :=
  ConverterInfo.make "AVI".toList "video".toList "avi".toList

/-- All three external operations succeed. -/
def envAllOk : FinalizeEnv :=
  { remuxOutcome := .ok, moveOutcome := .ok, removeOutcome := .ok }

/-- The commit move fails with an `EnvironmentError`, the cleanup removal
succeeds. -/
def envMoveFailsRemoveOk : FinalizeEnv :=
  { remuxOutcome := .ok,
    moveOutcome := .raises (.envError "disk full".toList),
    removeOutcome := .ok }

/-- The remux pass raises `FastStartException` and the cleanup removal fails
with an `EnvironmentError`. -/
def envRemuxFailRemoveFail : FinalizeEnv :=
  { remuxOutcome := .raises .fastStartExc,
    moveOutcome := .ok,
    removeOutcome := .raises (.envError "Permission denied".toList) }

def enoentMsg : List Char := "No such file or directory".toList

/-- Modelled from the spec and the documented interfaces of the external
collaborators: when `temp_output` no longer exists (the state after a
successful first `finalize`), `shutil.move` and `os.remove` both raise an
ENOENT `EnvironmentError`, and the remux collaborator reports failure
(spec section 6 specifies `remux` as success-or-raise). -/
def envTempMissing : FinalizeEnv :=
  { remuxOutcome := .raises .fastStartExc,
    moveOutcome := .raises (.envError enoentMsg),
    removeOutcome := .raises (.envError enoentMsg) }

/-- A fresh `ConverterManager` as built by `__init__`. -/
def emptyManager : ConverterManager :=
  { converters := [], brand_rmap := [], brand_map := [] }

/-! ## Lemmas about the scanning primitives -/

lemma isPrefixOf_cons_of_ne {a b : Char} (as bs : List Char)
    (h : (a == b) = false) : (a :: as).isPrefixOf (b :: bs) = false := by
  simp [List.isPrefixOf, h]

lemma isPrefixOf_append_self (l r : List Char) : l.isPrefixOf (l ++ r) = true := by
  induction l with
  | nil => simp [List.isPrefixOf]
  | cons a as ih => simp [List.isPrefixOf, ih]

lemma scanFor_cons_of_not (pat : List Char) (c : Char) (rest : List Char)
    (h1 : pat.isPrefixOf (c :: rest) = false) (h2 : c ≠ '\n') :
    scanFor pat (c :: rest) = scanFor pat rest := by
  simp [scanFor, h1, h2]

lemma scanFor_skip (pat f l : List Char) (hpat : pat.head? = some ' ')
    (hf : ∀ c ∈ f, c ≠ ' ' ∧ c ≠ '\n') :
    scanFor pat (f ++ l) = scanFor pat l := by
  induction f with
  | nil => rfl
  | cons c fs ih =>
    have hc := hf c (List.mem_cons_self c fs)
    have hpre : pat.isPrefixOf (c :: (fs ++ l)) = false := by
      cases pat with
      | nil => simp at hpat
      | cons p ps =>
        have hp : p = ' ' := by simpa using hpat
        subst hp
        exact isPrefixOf_cons_of_ne _ _
          (by simpa [beq_eq_false_iff_ne] using (Ne.symm hc.1))
    rw [List.cons_append, scanFor_cons_of_not _ _ _ hpre hc.2,
      ih (fun c hc => hf c (List.mem_cons_of_mem _ hc))]

lemma scanFor_boundary (pat f rest : List Char) (hpat : pat.head? = some ' ')
    (hf : ∀ c ∈ f, c ≠ ' ' ∧ c ≠ '\n') :
    scanFor pat (f ++ (pat ++ rest)) = some rest := by
  rw [scanFor_skip pat f _ hpat hf]
  cases pat with
  | nil => simp at hpat
  | cons p ps =>
    rw [List.cons_append, scanFor]
    simp only [← List.cons_append, isPrefixOf_append_self, if_true]
    simp [List.drop_left]

lemma splitFirst_boundary (pat f rest : List Char) (hpat : pat.head? = some ' ')
    (hf : ∀ c ∈ f, c ≠ ' ' ∧ c ≠ '\n') :
    splitFirst pat (f ++ (pat ++ rest)) = some (f, rest) := by
  induction f with
  | nil =>
    cases pat with
    | nil => simp at hpat
    | cons p ps =>
      rw [List.nil_append, List.cons_append, splitFirst]
      simp only [← List.cons_append, isPrefixOf_append_self, if_true]
      simp [List.drop_left]
  | cons c fs ih =>
    have hc := hf c (List.mem_cons_self c fs)
    have hpre : pat.isPrefixOf (c :: (fs ++ (pat ++ rest))) = false := by
      cases pat with
      | nil => simp at hpat
      | cons p ps =>
        have hp : p = ' ' := by simpa using hpat
        subst hp
        exact isPrefixOf_cons_of_ne _ _
          (by simpa [beq_eq_false_iff_ne] using (Ne.symm hc.1))
    rw [List.cons_append, splitFirst]
    simp [hpre, hc.2, ih (fun c hc => hf c (List.mem_cons_of_mem _ hc))]

lemma scanFor_nil (pat : List Char) (h : pat ≠ []) : scanFor pat [] = none := by
  cases pat with
  | nil => exact absurd rfl h
  | cons p ps => simp [scanFor, List.isPrefixOf]

lemma dropWhileAppendAll (p : Char → Bool) (w l : List Char)
    (h : ∀ c ∈ w, p c = true) : (w ++ l).dropWhile p = l.dropWhile p := by
  induction w with
  | nil => rfl
  | cons c ws ih =>
    rw [List.cons_append, List.dropWhile_cons]
    simp only [h c (List.mem_cons_self c ws), if_true]
    exact ih (fun c hc => h c (List.mem_cons_of_mem _ hc))

lemma hms_formula (a b c d : Nat) :
    hms_to_seconds (a : ℚ) (b : ℚ) ((c : ℚ) + (d : ℚ) / 100)
      = (a : ℚ) * 3600 + (b : ℚ) * 60 + (c : ℚ) + (d : ℚ) / 100 := by
  unfold hms_to_seconds; ring

/-! ## Lemmas about the parser on whole lines -/

/-- Any line of the shape matched by `LAST_PROGRESS_RE` whose six variable
fields contain neither a space nor a newline is classified as
`{finished: true}`: the error check, the duration pattern and (crucially)
`PROGRESS_RE` all fail on it, because the only occurrences of a space are
the literal separators and none of them is followed by `size=`. -/
lemma lsize_line_finished (f p q s t r : List Char)
    (hf : ∀ c ∈ f, c ≠ ' ' ∧ c ≠ '\n') (hp : ∀ c ∈ p, c ≠ ' ' ∧ c ≠ '\n')
    (hq : ∀ c ∈ q, c ≠ ' ' ∧ c ≠ '\n') (hs : ∀ c ∈ s, c ≠ ' ' ∧ c ≠ '\n')
    (ht : ∀ c ∈ t, c ≠ ' ' ∧ c ≠ '\n') (hr : ∀ c ∈ r, c ≠ ' ' ∧ c ≠ '\n') :
    processStatusLine
      (pFrame ++ f ++ pFps ++ p ++ pQ ++ q ++ pLsize ++ s ++ pTime ++ t ++ pBitrate ++ r)
      = .ok (some .finished) := by
  have herr : checkForErrors
      (pFrame ++ f ++ pFps ++ p ++ pQ ++ q ++ pLsize ++ s ++ pTime ++ t ++ pBitrate ++ r)
      = none := rfl
  have hdur : matchDuration
      (pFrame ++ f ++ pFps ++ p ++ pQ ++ q ++ pLsize ++ s ++ pTime ++ t ++ pBitrate ++ r)
      = none := rfl
  have hbare : matchProgressBare
      (pFrame ++ f ++ pFps ++ p ++ pQ ++ q ++ pLsize ++ s ++ pTime ++ t ++ pBitrate ++ r)
      = none := rfl
  have hpfx : pFrame.isPrefixOf
      (pFrame ++ f ++ pFps ++ p ++ pQ ++ q ++ pLsize ++ s ++ pTime ++ t ++ pBitrate ++ r)
      = true := isPrefixOf_append_self _ _
  have hdrop : (pFrame ++ f ++ pFps ++ p ++ pQ ++ q ++ pLsize ++ s ++ pTime ++ t ++ pBitrate ++ r).drop
      pFrame.length
      = f ++ (pFps ++ (p ++ (pQ ++ (q ++ (pLsize ++ (s ++ (pTime ++ (t ++ (pBitrate ++ r))))))))) := by
    simp [List.append_assoc, List.drop_left]
  have e1 : scanFor pFps
      (f ++ (pFps ++ (p ++ (pQ ++ (q ++ (pLsize ++ (s ++ (pTime ++ (t ++ (pBitrate ++ r))))))))))
      = some (p ++ (pQ ++ (q ++ (pLsize ++ (s ++ (pTime ++ (t ++ (pBitrate ++ r)))))))) :=
    scanFor_boundary _ _ _ rfl hf
  have e2 : scanFor pQ
      (p ++ (pQ ++ (q ++ (pLsize ++ (s ++ (pTime ++ (t ++ (pBitrate ++ r))))))))
      = some (q ++ (pLsize ++ (s ++ (pTime ++ (t ++ (pBitrate ++ r)))))) :=
    scanFor_boundary _ _ _ rfl hp
  have eL : ∀ X : List Char, scanFor pSize (pLsize ++ X) = scanFor pSize X := fun _ => rfl
  have eT : ∀ X : List Char, scanFor pSize (pTime ++ X) = scanFor pSize X := fun _ => rfl
  have eB : ∀ X : List Char, scanFor pSize (pBitrate ++ X) = scanFor pSize X := fun _ => rfl
  have e3 : scanFor pSize (q ++ (pLsize ++ (s ++ (pTime ++ (t ++ (pBitrate ++ r)))))) = none := by
    rw [scanFor_skip pSize q _ rfl hq, eL, scanFor_skip pSize s _ rfl hs, eT,
      scanFor_skip pSize t _ rfl ht, eB, ← List.append_nil r,
      scanFor_skip pSize r _ rfl hr]
    exact scanFor_nil _ (by decide)
  have hframe : matchProgressFrame
      (pFrame ++ f ++ pFps ++ p ++ pQ ++ q ++ pLsize ++ s ++ pTime ++ t ++ pBitrate ++ r)
      = none := by
    simp only [matchProgressFrame, hpfx, if_true, hdrop, e1, e2, e3]
  have hprog : matchProgress
      (pFrame ++ f ++ pFps ++ p ++ pQ ++ q ++ pLsize ++ s ++ pTime ++ t ++ pBitrate ++ r)
      = none := by
    simp only [matchProgress, hframe, hbare]
  have l2 : scanFor pLsize (q ++ (pLsize ++ (s ++ (pTime ++ (t ++ (pBitrate ++ r))))))
      = some (s ++ (pTime ++ (t ++ (pBitrate ++ r)))) := scanFor_boundary _ _ _ rfl hq
  have l3 : scanFor pTime (s ++ (pTime ++ (t ++ (pBitrate ++ r))))
      = some (t ++ (pBitrate ++ r)) := scanFor_boundary _ _ _ rfl hs
  have l4 : splitFirst pBitrate (t ++ (pBitrate ++ r)) = some (t, r) :=
    splitFirst_boundary _ _ _ rfl ht
  have hlast : matchLastProgress
      (pFrame ++ f ++ pFps ++ p ++ pQ ++ q ++ pLsize ++ s ++ pTime ++ t ++ pBitrate ++ r)
      = some t := by
    simp only [matchLastProgress, hpfx, if_true, hdrop, e1, e2, l2, l3, l4]
  simp only [processStatusLine, herr, processRest, hdur, hprog, hlast]

/-- Any line consisting of a (possibly empty) run of non-word characters,
then `Duration: HH:MM:SS.CC` with digit groups, then an arbitrary tail, is
classified as a duration event with the value given by the spec formula. -/
lemma duration_line_event (w : List Char) (h1 h2 m1 m2 s1 s2 d1 d2 : Char)
    (tail : List Char)
    (hw : ∀ c ∈ w, isWordChar c = false)
    (hh1 : h1.isDigit = true) (hh2 : h2.isDigit = true)
    (hm1 : m1.isDigit = true) (hm2 : m2.isDigit = true)
    (hs1 : s1.isDigit = true) (hs2 : s2.isDigit = true)
    (hd1 : d1.isDigit = true) (hd2 : d2.isDigit = true) :
    processStatusLine
      (w ++ (durationPat ++ (h1 :: h2 :: ':' :: m1 :: m2 :: ':' :: s1 :: s2 :: '.' :: d1 :: d2 :: tail)))
      = .ok (some (.duration
          ((twoDigits h1 h2 : ℚ) * 3600 + (twoDigits m1 m2 : ℚ) * 60 +
            (twoDigits s1 s2 : ℚ) + (twoDigits d1 d2 : ℚ) / 100))) := by
  have hU : "Unknown".toList.isPrefixOf
      (w ++ (durationPat ++ (h1 :: h2 :: ':' :: m1 :: m2 :: ':' :: s1 :: s2 :: '.' :: d1 :: d2 :: tail)))
      = false := by
    cases w with
    | nil => rfl
    | cons c ws =>
      have hc : isWordChar c = false := hw c (List.mem_cons_self c ws)
      have hne : 'U' ≠ c := fun h => by rw [← h] at hc; exact absurd hc (by decide)
      exact isPrefixOf_cons_of_ne _ _ (beq_eq_false_iff_ne.mpr hne)
  have hE : "Error".toList.isPrefixOf
      (w ++ (durationPat ++ (h1 :: h2 :: ':' :: m1 :: m2 :: ':' :: s1 :: s2 :: '.' :: d1 :: d2 :: tail)))
      = false := by
    cases w with
    | nil => rfl
    | cons c ws =>
      have hc : isWordChar c = false := hw c (List.mem_cons_self c ws)
      have hne : 'E' ≠ c := fun h => by rw [← h] at hc; exact absurd hc (by decide)
      exact isPrefixOf_cons_of_ne _ _ (beq_eq_false_iff_ne.mpr hne)
  have herr : checkForErrors
      (w ++ (durationPat ++ (h1 :: h2 :: ':' :: m1 :: m2 :: ':' :: s1 :: s2 :: '.' :: d1 :: d2 :: tail)))
      = none := by
    unfold checkForErrors
    rw [hU, hE]
    simp
  have hdw : (w ++ (durationPat ++ (h1 :: h2 :: ':' :: m1 :: m2 :: ':' :: s1 :: s2 :: '.' :: d1 :: d2 :: tail))).dropWhile
      (fun c => !(isWordChar c))
      = durationPat ++ (h1 :: h2 :: ':' :: m1 :: m2 :: ':' :: s1 :: s2 :: '.' :: d1 :: d2 :: tail) := by
    rw [dropWhileAppendAll _ w _ (fun c hc => by simp [hw c hc])]
    rfl
  have hmd : matchDuration
      (w ++ (durationPat ++ (h1 :: h2 :: ':' :: m1 :: m2 :: ':' :: s1 :: s2 :: '.' :: d1 :: d2 :: tail)))
      = some (twoDigits h1 h2, twoDigits m1 m2, twoDigits s1 s2, twoDigits d1 d2) := by
    simp only [matchDuration, hdw, isPrefixOf_append_self, if_true, List.drop_left,
      readDigit2, expectChar]
    simp [hh1, hh2, hm1, hm2, hs1, hs2, hd1, hd2]
  simp only [processStatusLine, herr, processRest, hmd, hms_formula]

/-! ## Registry lemmas -/

lemma dictLookup_insert (k : List Char) (v : ConverterInfo)
    (d : List (List Char × ConverterInfo)) :
    dictLookup k (dictInsert k v d) = some v := by
  induction d with
  | nil => simp [dictInsert, dictLookup]
  | cons kv rest ih =>
    rcases kv with ⟨k2, v2⟩
    by_cases h : k2 = k
    · simp [dictInsert, dictLookup, h]
    · simp [dictInsert, dictLookup, h, ih]

lemma keyCount_le_one_of_nodup (k : List Char)
    (d : List (List Char × ConverterInfo))
    (h : (d.map Prod.fst).Nodup) : keyCount k d ≤ 1 := by
  induction d with
  | nil => simp [keyCount]
  | cons kv rest ih =>
    rcases kv with ⟨k2, v2⟩
    rw [List.map_cons, List.nodup_cons] at h
    by_cases hk : k2 = k
    · subst hk
      have hz : keyCount k2 rest = 0 := by
        unfold keyCount
        rw [List.countP_eq_zero]
        intro kv hkv
        simp only [beq_iff_eq]
        intro hfst
        exact h.1 (List.mem_map.mpr ⟨kv, hkv, hfst⟩)
      unfold keyCount at hz ⊢
      rw [List.countP_cons]
      simp [hz]
    · unfold keyCount at ih ⊢
      rw [List.countP_cons]
      have hf : ((k2, v2).1 == k) = false := by simpa [beq_eq_false_iff_ne] using hk
      simp [hf]
      exact ih h.2

lemma keyCount_insert (k : List Char) (v : ConverterInfo)
    (d : List (List Char × ConverterInfo)) (h : keyCount k d ≤ 1) :
    keyCount k (dictInsert k v d) = 1 := by
  induction d with
  | nil => simp [dictInsert, keyCount, List.countP_cons]
  | cons kv rest ih =>
    rcases kv with ⟨k2, v2⟩
    unfold keyCount at h ih ⊢
    by_cases hk : k2 = k
    · subst hk
      rw [dictInsert, if_pos rfl]
      rw [List.countP_cons] at h ⊢
      have e1 : (if ((k2, v).1 == k2) = true then 1 else 0) = 1 := by simp
      have e2 : (if ((k2, v2).1 == k2) = true then 1 else 0) = 1 := by simp
      rw [e1]
      rw [e2] at h
      omega
    · rw [dictInsert, if_neg hk]
      rw [List.countP_cons] at h ⊢
      have hf : ((k2, v2).1 == k) = false := by simpa [beq_eq_false_iff_ne] using hk
      have e3 : (if ((k2, v2).1 == k) = true then 1 else 0) = 0 := by simp [hf]
      rw [e3] at h ⊢
      rw [Nat.add_zero] at h ⊢
      exact ih h

lemma rmapLookup_none_of_fresh (c : ConverterInfo)
    (d : List (ConverterInfo × Option (List Char)))
    (h : ∀ p ∈ d, p.1 ≠ c) : rmapLookup c d = none := by
  induction d with
  | nil => rfl
  | cons p rest ih =>
    rcases p with ⟨k2, v2⟩
    rw [rmapLookup, if_neg (h (k2, v2) (List.mem_cons_self _ _))]
    exact ih (fun p hp => h p (List.mem_cons_of_mem _ hp))

lemma bmapLookup_mem (b : Option (List Char))
    (d : List (Option (List Char) × List ConverterInfo)) (l : List ConverterInfo)
    (h : bmapLookup b d = some l) : ∃ g ∈ d, g.2 = l := by
  induction d with
  | nil => simp [bmapLookup] at h
  | cons p rest ih =>
    rcases p with ⟨k2, v2⟩
    rw [bmapLookup] at h
    by_cases hk : k2 = b
    · rw [if_pos hk] at h
      exact ⟨(k2, v2), List.mem_cons_self _ _, by simpa using h⟩
    · rw [if_neg hk] at h
      obtain ⟨g, hg, hgl⟩ := ih h
      exact ⟨g, List.mem_cons_of_mem _ hg, hgl⟩

/-! ## Claims -/

/-- C1 counterexample: the claim says that when the commit operation
succeeds, `finalize` performs no removal of `temp_output`.  For the
remux-branch profile with all operations succeeding (so the remux commit
succeeds), the removal is nevertheless attempted, because `needs_remove` is
set before the `try`. -/
theorem c1_claim_counterexample :
    envAllOk.remuxOutcome = .ok ∧
    (mp4FormatConverter.finalize envAllOk).removeAttempted = true := by decide

/-- C1 (amended): when the commit operation succeeds and any removal failure
is an `EnvironmentError` (the failure mode of `os.remove`), `finalize`
raises no exception; no removal occurs in the move branch, but in the remux
branch removal of `temp_output` is always attempted, even on success. -/
theorem c1_success_path_amended (c : ConverterInfo) (env : FinalizeEnv)
    (hcommit : if c.media_type = "format".toList ∧ c.extension = "mp4".toList
      then env.remuxOutcome = .ok else env.moveOutcome = .ok)
    (hremove : env.removeOutcome = .ok ∨
      ∃ m, env.removeOutcome = .raises (.envError m)) :
    (c.finalize env).raised = none ∧
    (c.finalize env).removeAttempted =
      (if c.media_type = "format".toList ∧ c.extension = "mp4".toList
        then true else false) := by
  by_cases hb : c.media_type = "format".toList ∧ c.extension = "mp4".toList
  · rw [if_pos hb] at hcommit ⊢
    unfold ConverterInfo.finalize
    rw [if_pos hb, hcommit]
    unfold finalizeCleanup
    rcases hremove with h | ⟨m, h⟩ <;> simp [h]
  · rw [if_neg hb] at hcommit ⊢
    unfold ConverterInfo.finalize
    rw [if_neg hb, hcommit]
    simp [finalizeCleanup]

/-- C1 witness: the remux-branch profile with all operations succeeding
returns normally with the removal attempted. -/
theorem c1_success_path_amended_witness :
    (mp4FormatConverter.finalize envAllOk).raised = none ∧
    (mp4FormatConverter.finalize envAllOk).removeAttempted = true := by
  have h := c1_success_path_amended mp4FormatConverter envAllOk
    (by rw [if_pos (⟨rfl, rfl⟩ :
      mp4FormatConverter.media_type = "format".toList ∧
        mp4FormatConverter.extension = "mp4".toList)]; rfl) (Or.inl rfl)
  exact ⟨h.1, h.2.trans (if_pos ⟨rfl, rfl⟩)⟩

/-- C2 counterexample: the claim says that whenever the commit operation
fails, `finalize` raises an error wrapping that failure.  For a plain-move
profile whose move fails with an `EnvironmentError` while the cleanup
removal succeeds, `finalize` returns normally: the commit failure is
swallowed. -/
theorem c2_claim_counterexample :
    envMoveFailsRemoveOk.moveOutcome = .raises (.envError "disk full".toList) ∧
    (aviConverter.finalize envMoveFailsRemoveOk).raised = none := by decide

/-- C2 (amended): when the commit operation fails with the exception its
branch catches (remux raising `FastStartException`, or move raising an
`EnvironmentError`), removal of `temp_output` is attempted, and the pending
commit error escapes if and only if that removal itself fails with an
`EnvironmentError`; if the removal succeeds, the commit failure is silently
swallowed and `finalize` returns normally.  When an exception does escape it
is exactly the pending commit error, never the removal error. -/
theorem c2_commit_failure_amended (c : ConverterInfo) (env : FinalizeEnv)
    (pend : PyErr)
    (hfail : ((c.media_type = "format".toList ∧ c.extension = "mp4".toList) ∧
        env.remuxOutcome = .raises .fastStartExc ∧
        pend = .envError qtfaststartMsg) ∨
      (¬(c.media_type = "format".toList ∧ c.extension = "mp4".toList) ∧
        ∃ m, env.moveOutcome = .raises (.envError m) ∧ pend = .envError m)) :
    (c.finalize env).removeAttempted = true ∧
    (env.removeOutcome = .ok → (c.finalize env).raised = none) ∧
    (∀ m2, env.removeOutcome = .raises (.envError m2) →
      (c.finalize env).raised = some pend) := by
  rcases hfail with ⟨hb, hro, hp⟩ | ⟨hb, m, hmo, hp⟩
  · subst hp
    unfold ConverterInfo.finalize
    rw [if_pos hb, hro]
    refine ⟨?_, ?_, ?_⟩
    · unfold finalizeCleanup
      rcases env.removeOutcome with _ | e
      · simp
      · rcases e <;> simp
    · intro h; simp [finalizeCleanup, h]
    · intro m2 h; simp [finalizeCleanup, h]
  · subst hp
    unfold ConverterInfo.finalize
    rw [if_neg hb, hmo]
    refine ⟨?_, ?_, ?_⟩
    · unfold finalizeCleanup
      rcases env.removeOutcome with _ | e
      · simp
      · rcases e <;> simp
    · intro h; simp [finalizeCleanup, h]
    · intro m2 h; simp [finalizeCleanup, h]

/-- C2 witness: a plain-move profile whose move fails while the removal
succeeds attempts the removal and returns normally. -/
theorem c2_commit_failure_amended_witness :
    (aviConverter.finalize envMoveFailsRemoveOk).removeAttempted = true ∧
    (aviConverter.finalize envMoveFailsRemoveOk).raised = none := by
  have h := c2_commit_failure_amended aviConverter envMoveFailsRemoveOk
    (.envError "disk full".toList)
    (Or.inr ⟨by decide, "disk full".toList, rfl, rfl⟩)
  exact ⟨h.1, h.2.1 rfl⟩

/-- C3: whenever removal of `temp_output` was marked needed, the removal is
attempted, and if the removal itself fails with an `EnvironmentError` while
a pending error from the commit operation exists, the original pending error
is re-raised, never the removal error.  The hypothesis `hremux` restricts
the remux collaborator to its specified interface (success or
`FastStartException`), so that no foreign exception aborts `finalize` before
the cleanup block. -/
theorem c3_removal_attempted_and_never_masks (c : ConverterInfo)
    (env : FinalizeEnv)
    (hremux : c.media_type = "format".toList ∧ c.extension = "mp4".toList →
      env.remuxOutcome = .ok ∨ env.remuxOutcome = .raises .fastStartExc)
    (hneed : needsRemoveMarked c env = true) :
    (c.finalize env).removeAttempted = true ∧
    (∀ e m, pendingError c env = some e →
      env.removeOutcome = .raises (.envError m) →
      (c.finalize env).raised = some e) := by
  by_cases hb : c.media_type = "format".toList ∧ c.extension = "mp4".toList
  · rcases hremux hb with hro | hro
    · unfold ConverterInfo.finalize
      rw [if_pos hb, hro]
      constructor
      · unfold finalizeCleanup
        rcases env.removeOutcome with _ | e
        · simp
        · rcases e <;> simp
      · intro e m hpend hrem
        unfold pendingError at hpend
        rw [if_pos hb, hro] at hpend
        simp at hpend
    · unfold ConverterInfo.finalize
      rw [if_pos hb, hro]
      constructor
      · unfold finalizeCleanup
        rcases env.removeOutcome with _ | e
        · simp
        · rcases e <;> simp
      · intro e m hpend hrem
        unfold pendingError at hpend
        rw [if_pos hb, hro] at hpend
        have he : e = PyErr.envError qtfaststartMsg := by
          simpa using hpend.symm
        subst he
        simp [finalizeCleanup, hrem]
  · unfold needsRemoveMarked at hneed
    rw [if_neg hb] at hneed
    rcases hmo : env.moveOutcome with _ | e
    · rw [hmo] at hneed; simp at hneed
    · rcases e with m | _ | msg
      · unfold ConverterInfo.finalize
        rw [if_neg hb, hmo]
        constructor
        · unfold finalizeCleanup
          rcases env.removeOutcome with _ | e2
          · simp
          · rcases e2 <;> simp
        · intro e m2 hpend hrem
          unfold pendingError at hpend
          rw [if_neg hb, hmo] at hpend
          have he : e = PyErr.envError m := by simpa using hpend.symm
          subst he
          simp [finalizeCleanup, hrem]
      · rw [hmo] at hneed; simp at hneed
      · rw [hmo] at hneed; simp at hneed

/-- C3 witness: remux branch with `FastStartException` and a failing
removal: the removal is attempted and the pending qtfaststart
`EnvironmentError` is re-raised, not the removal error. -/
theorem c3_removal_witness :
    (mp4FormatConverter.finalize envRemuxFailRemoveFail).removeAttempted = true ∧
    (mp4FormatConverter.finalize envRemuxFailRemoveFail).raised =
      some (.envError qtfaststartMsg) := by
  have h := c3_removal_attempted_and_never_masks mp4FormatConverter
    envRemuxFailRemoveFail (fun _ => Or.inr rfl) (by decide)
  exact ⟨h.1, h.2 (.envError qtfaststartMsg) "Permission denied".toList
    (by decide) rfl⟩

/-- C4 counterexample: the claim says a second `finalize` with the same
already-missing temp path raises no exception.  For a plain-move profile it
does raise: the move fails with ENOENT, the removal also fails, and the
pending move error is re-raised. -/
theorem c4_claim_counterexample :
    ¬((aviConverter.finalize envTempMissing).raised = none) := by decide

/-- C4 (amended): for every plain-move profile, a second `finalize` call
after a successful first one (temp path missing, so both the move and the
removal raise ENOENT `EnvironmentError`) raises the ENOENT move error after
attempting the removal; the call is not a no-op. -/
theorem c4_second_call_amended (c : ConverterInfo)
    (h : ¬(c.media_type = "format".toList ∧ c.extension = "mp4".toList)) :
    (c.finalize envTempMissing).raised = some (.envError enoentMsg) ∧
    (c.finalize envTempMissing).removeAttempted = true := by
  unfold ConverterInfo.finalize
  rw [if_neg h]
  simp [envTempMissing, finalizeCleanup]

/-- C4 witness: the plain-move profile raises ENOENT on the second call. -/
theorem c4_second_call_amended_witness :
    (aviConverter.finalize envTempMissing).raised = some (.envError enoentMsg) ∧
    (aviConverter.finalize envTempMissing).removeAttempted = true :=
  c4_second_call_amended aviConverter (by decide)

/-- C5: the error check is applied first: every line beginning with
`Unknown`, or beginning with `Error` but not with
`Error while decoding stream`, yields `{finished: true, error: line}`; in
particular `Error while decoding stream #0:0` yields no event at all, while
`Error opening input file` yields the error event carrying that line. -/
theorem c5_error_check_first :
    (∀ l : List Char,
      ("Unknown".toList.isPrefixOf l = true ∨
        ("Error".toList.isPrefixOf l = true ∧
          "Error while decoding stream".toList.isPrefixOf l = false)) →
      processStatusLine l = .ok (some (.finishedError l))) ∧
    processStatusLine "Error while decoding stream #0:0".toList = .ok none ∧
    processStatusLine "Error opening input file".toList =
      .ok (some (.finishedError "Error opening input file".toList)) := by
  refine ⟨?_, by decide, by decide⟩
  intro l h
  rcases h with hU | ⟨hE, hNd⟩
  · cases l with
    | nil => simp [List.isPrefixOf] at hU
    | cons c r =>
      have hcheck : checkForErrors (c :: r) = some (c :: r) := by
        unfold checkForErrors
        rw [hU]
        simp
      simp only [processStatusLine, hcheck, List.isEmpty_cons, if_false,
        Bool.false_eq_true]
  · cases l with
    | nil => simp [List.isPrefixOf] at hE
    | cons c r =>
      have hc : c = 'E' := by
        have hb : ('E' == c) = true := by
          rw [show ("Error".toList.isPrefixOf (c :: r))
              = (('E' == c) && "rror".toList.isPrefixOf r) from rfl] at hE
          exact ((Bool.and_eq_true _ _).mp hE).1
        exact (beq_iff_eq.mp hb).symm
      subst hc
      have hU : "Unknown".toList.isPrefixOf ('E' :: r) = false :=
        isPrefixOf_cons_of_ne _ _ (by decide)
      have hcheck : checkForErrors ('E' :: r) = some ('E' :: r) := by
        unfold checkForErrors
        rw [hU, hE, hNd]
        simp
      simp only [processStatusLine, hcheck, List.isEmpty_cons, if_false,
        Bool.false_eq_true]

/-- C5 witness: a line starting with `Unknown` yields the error event
carrying the whole line. -/
theorem c5_error_check_first_witness :
    processStatusLine "Unknown codec".toList =
      .ok (some (.finishedError "Unknown codec".toList)) :=
  c5_error_check_first.1 "Unknown codec".toList (Or.inl (by decide))

/-- C6: every line matching `Duration: HH:MM:SS.CC` (after a non-word
prefix, with an arbitrary tail such as start/bitrate annotations) yields
`{duration: HH*3600 + MM*60 + SS + CC/100}`; in particular the line
`Duration: 00:01:30.50, start: 0.000000, bitrate: 128 kb/s` yields a
duration of 90.5 seconds. -/
theorem c6_duration_line :
    (∀ (w : List Char) (h1 h2 m1 m2 s1 s2 d1 d2 : Char) (tail : List Char),
      (∀ c ∈ w, isWordChar c = false) →
      h1.isDigit = true → h2.isDigit = true →
      m1.isDigit = true → m2.isDigit = true →
      s1.isDigit = true → s2.isDigit = true →
      d1.isDigit = true → d2.isDigit = true →
      processStatusLine
        (w ++ (durationPat ++ (h1 :: h2 :: ':' :: m1 :: m2 :: ':' :: s1 :: s2 :: '.' :: d1 :: d2 :: tail)))
        = .ok (some (.duration
            ((twoDigits h1 h2 : ℚ) * 3600 + (twoDigits m1 m2 : ℚ) * 60 +
              (twoDigits s1 s2 : ℚ) + (twoDigits d1 d2 : ℚ) / 100)))) ∧
    processStatusLine
      "Duration: 00:01:30.50, start: 0.000000, bitrate: 128 kb/s".toList
      = .ok (some (.duration (181 / 2))) := by
  constructor
  · intro w h1 h2 m1 m2 s1 s2 d1 d2 tail hw hh1 hh2 hm1 hm2 hs1 hs2 hd1 hd2
    exact duration_line_event w h1 h2 m1 m2 s1 s2 d1 d2 tail hw
      hh1 hh2 hm1 hm2 hs1 hs2 hd1 hd2
  · have h : processStatusLine
        "Duration: 00:01:30.50, start: 0.000000, bitrate: 128 kb/s".toList
        = .ok (some (.duration
            ((twoDigits '0' '0' : ℚ) * 3600 + (twoDigits '0' '1' : ℚ) * 60 +
              (twoDigits '3' '0' : ℚ) + (twoDigits '5' '0' : ℚ) / 100))) :=
      duration_line_event [] '0' '0' '0' '1' '3' '0' '5' '0'
        ", start: 0.000000, bitrate: 128 kb/s".toList (by simp)
        rfl rfl rfl rfl rfl rfl rfl rfl
    rw [h, show twoDigits '0' '0' = 0 from rfl, show twoDigits '0' '1' = 1 from rfl,
      show twoDigits '3' '0' = 30 from rfl, show twoDigits '5' '0' = 50 from rfl]
    norm_num

/-- C6 witness: a duration line with a leading space run and no tail. -/
theorem c6_duration_line_witness :
    processStatusLine "  Duration: 01:02:03.04".toList
      = .ok (some (.duration
          ((twoDigits '0' '1' : ℚ) * 3600 + (twoDigits '0' '2' : ℚ) * 60 +
            (twoDigits '0' '3' : ℚ) + (twoDigits '0' '4' : ℚ) / 100))) :=
  c6_duration_line.1 [' ', ' '] '0' '1' '0' '2' '0' '3' '0' '4' []
    (by decide) rfl rfl rfl rfl rfl rfl rfl rfl

/-- C7: every line of the progress shape but carrying the capital-L
`Lsize=` marker (the final summary line, whose six fields contain no space
and no newline) yields `{finished: true}` with no progress value; in
particular the line
`frame=100 fps=25 q=0 Lsize=2048kB time=00:02:00.00 bitrate=128.0kbits/s`
yields `{finished: true}`. -/
theorem c7_lsize_finished :
    (∀ f p q s t r : List Char,
      (∀ c ∈ f, c ≠ ' ' ∧ c ≠ '\n') → (∀ c ∈ p, c ≠ ' ' ∧ c ≠ '\n') →
      (∀ c ∈ q, c ≠ ' ' ∧ c ≠ '\n') → (∀ c ∈ s, c ≠ ' ' ∧ c ≠ '\n') →
      (∀ c ∈ t, c ≠ ' ' ∧ c ≠ '\n') → (∀ c ∈ r, c ≠ ' ' ∧ c ≠ '\n') →
      processStatusLine
        (pFrame ++ f ++ pFps ++ p ++ pQ ++ q ++ pLsize ++ s ++ pTime ++ t ++ pBitrate ++ r)
        = .ok (some .finished)) ∧
    processStatusLine
      "frame=100 fps=25 q=0 Lsize=2048kB time=00:02:00.00 bitrate=128.0kbits/s".toList
      = .ok (some .finished) :=
  ⟨lsize_line_finished, by decide⟩

/-- C7 witness: the summary line of the spec example, built from its six
fields. -/
theorem c7_lsize_finished_witness :
    processStatusLine
      (pFrame ++ "100".toList ++ pFps ++ "25".toList ++ pQ ++ "0".toList ++
        pLsize ++ "2048kB".toList ++ pTime ++ "00:02:00.00".toList ++
        pBitrate ++ "128.0kbits/s".toList)
      = .ok (some .finished) :=
  c7_lsize_finished.1 "100".toList "25".toList "0".toList "2048kB".toList
    "00:02:00.00".toList "128.0kbits/s".toList
    (by decide) (by decide) (by decide) (by decide) (by decide) (by decide)

/-- C8: `get_output_filename` equals the stem of the basename of the source
filename, then one dot, the identifier of the profile, another dot, and the
extension: the extension of the profile when truthy, else the source
extension with its leading dot stripped.  The two concrete instances show a
profile with a set extension and one that keeps the source extension. -/
theorem c8_output_filename :
    (∀ (c : ConverterInfo) (v : Video),
      c.get_output_filename v =
        (splitext (basename v.filename)).1 ++ ('.' :: c.identifier) ++
          ('.' :: (if pyTruthy c.extension then c.extension
            else stripLeadingDot (splitext (basename v.filename)).2))) ∧
    (ConverterInfo.make "iPod Touch".toList [] "mp4".toList).get_output_filename
      ⟨"/tmp/My Movie.avi".toList⟩ = "My Movie.ipodtouch.mp4".toList ∧
    (ConverterInfo.make "WebM".toList [] []).get_output_filename
      ⟨"/tmp/clip.avi".toList⟩ = "clip.webm.avi".toList :=
  ⟨fun _ _ => rfl, by decide, by decide⟩

/-- C9: adding two profiles whose names normalize to the same identifier
leaves exactly one stored profile under that identifier, namely the one
added later. -/
theorem c9_registry_last_wins (m : ConverterManager)
    (n1 n2 mt1 ext1 mt2 ext2 : List Char)
    (hnodup : (m.converters.map Prod.fst).Nodup)
    (hcollide : normalizeName n1 = normalizeName n2) :
    dictLookup (normalizeName n2)
        (((m.add_converter (ConverterInfo.make n1 mt1 ext1)).add_converter
          (ConverterInfo.make n2 mt2 ext2)).converters)
      = some (ConverterInfo.make n2 mt2 ext2) ∧
    keyCount (normalizeName n2)
        (((m.add_converter (ConverterInfo.make n1 mt1 ext1)).add_converter
          (ConverterInfo.make n2 mt2 ext2)).converters) = 1 := by
  have hid1 : (ConverterInfo.make n1 mt1 ext1).identifier = normalizeName n2 := by
    rw [← hcollide]; rfl
  have hid2 : (ConverterInfo.make n2 mt2 ext2).identifier = normalizeName n2 := rfl
  unfold ConverterManager.add_converter
  simp only [hid1, hid2]
  constructor
  · exact dictLookup_insert _ _ _
  · refine keyCount_insert _ _ _ ?_
    rw [keyCount_insert _ _ _ (keyCount_le_one_of_nodup _ _ hnodup)]

/-- C9 witness: `MP4!` and `mp-4` both normalize to `mp4`; after adding
both to a fresh manager the later profile is the unique one stored under
`mp4`. -/
theorem c9_registry_last_wins_witness :
    dictLookup (normalizeName "mp-4".toList)
        (((emptyManager.add_converter (ConverterInfo.make "MP4!".toList [] [])).add_converter
          (ConverterInfo.make "mp-4".toList [] "mp4".toList)).converters)
      = some (ConverterInfo.make "mp-4".toList [] "mp4".toList) ∧
    keyCount (normalizeName "mp-4".toList)
        (((emptyManager.add_converter (ConverterInfo.make "MP4!".toList [] [])).add_converter
          (ConverterInfo.make "mp-4".toList [] "mp4".toList)).converters) = 1 :=
  c9_registry_last_wins emptyManager "MP4!".toList "mp-4".toList [] [] []
    "mp4".toList (by simp [emptyManager]) (by decide)

/-- C10: `add_converter` changes only the identifier-to-profile map:
`brand_map` and `brand_rmap` are untouched, so a profile that was not
already in the brand maps appears in no brand group afterwards and
`converter_to_brand` returns `none` for it, exactly the result for an
explicitly unbranded profile. -/
theorem c10_add_converter_frame (m : ConverterManager) (c : ConverterInfo)
    (hfresh : ∀ p ∈ m.brand_rmap, p.1 ≠ c)
    (hgroups : ∀ g ∈ m.brand_map, c ∉ g.2) :
    ((m.add_converter c).brand_map = m.brand_map ∧
      (m.add_converter c).brand_rmap = m.brand_rmap) ∧
    (m.add_converter c).converter_to_brand c = none ∧
    (∀ b l, (m.add_converter c).brand_to_converters b = some l → c ∉ l) := by
  refine ⟨⟨rfl, rfl⟩, ?_, ?_⟩
  · unfold ConverterManager.converter_to_brand
    rw [show (m.add_converter c).brand_rmap = m.brand_rmap from rfl,
      rmapLookup_none_of_fresh c _ hfresh]
  · intro b l hl
    rw [show (m.add_converter c).brand_to_converters b
        = bmapLookup b m.brand_map from rfl] at hl
    obtain ⟨g, hg, hgl⟩ := bmapLookup_mem b _ l hl
    rw [← hgl]
    exact hgroups g hg

/-- C10 witness: registering a profile directly on a fresh manager leaves
both brand maps empty and `converter_to_brand` returns `none` for it. -/
theorem c10_add_converter_frame_witness :
    ((emptyManager.add_converter aviConverter).brand_map = emptyManager.brand_map ∧
      (emptyManager.add_converter aviConverter).brand_rmap = emptyManager.brand_rmap) ∧
    (emptyManager.add_converter aviConverter).converter_to_brand aviConverter = none := by
  have h := c10_add_converter_frame emptyManager aviConverter
    (by simp [emptyManager]) (by simp [emptyManager])
  exact ⟨h.1, h.2.1⟩
